import Mathlib

/-!
Verification of the CrowdAnki JSON exporter (`crowd_anki/export/anki_exporter.py`).

The Python module is shallowly embedded below: pure fragments become Lean
functions, the stateful export operations become functions that return an
explicit list of observable events (file writes, collection-store saves,
media copies) or an `Except` value when the Python code can raise.
Components of the repository that are referenced by the exporter but whose
source is not part of the file (the note sorter, the filename sanitizer and
the constants module) are modelled from the specification and marked as such
in their doc comments.
-/

namespace CrowdAnki

/-- Modelled from the spec: `DECK_FILE_NAME` comes from the missing
`utils/constants.py`; the spec fixes the produced file name to `deck.json`,
so the name part is `deck`. -/
def DECK_FILE_NAME : String := "deck"

/-- Modelled from the spec: `DECK_FILE_EXTENSION` comes from the missing
`utils/constants.py`; the spec's remote-sink example path is
`MyDeck/deck.json`, so the extension is `.json`. -/
def DECK_FILE_EXTENSION : String := ".json"

/-- Modelled from the spec: `MEDIA_SUBDIRECTORY_NAME` comes from the missing
`utils/constants.py`; the spec's file layout is
`<sanitized-deck-name>/media/<original-filename>`. -/
def MEDIA_SUBDIRECTORY_NAME : String := "media"

/-- Characters that are not filesystem safe and get replaced by the deck-name
sanitizer. -/
def invalidChar (c : Char) : Bool :=
  c = ':' || c = '/' || c = '\\' || c = '*' || c = '?' || c = '\x22' ||
  c = '<' || c = '>' || c = '|'

/-- Modelled from the spec: `sanitize_anki_deck_name` comes from the missing
`utils/filesystem/name_sanitizer.py`.  The spec requires replacing `::` (and
generally filesystem-unsafe characters) with a filesystem-safe separator;
each unsafe character is replaced by an underscore. -/
def sanitize_anki_deck_name (name : String) : String :=
  String.mk (name.data.map (fun c => if invalidChar c then '_' else c))

/-- `Path.joinpath`: join two path components with a slash. -/
def joinPath (a b : String) : String := a ++ "/" ++ b

/-- Part of `Path.with_suffix`: remove the old extension of the final path
component (everything from the last dot, provided a dot occurs after the
first character, mirroring `pathlib` which keeps a leading dot). -/
def dropLastExt (comp : List Char) : List Char :=
  if (comp.drop 1).contains '.' then
    (((comp.reverse.dropWhile (fun c => c != '.')).drop 1).reverse)
  else comp

/-- `Path.with_suffix ext`: replace the extension of the final component of
`p` by `ext` (appending `ext` when the component has none). -/
def withSuffix (p ext : String) : String :=
  let r := p.data.reverse
  let comp := (r.takeWhile (fun c => c != '/')).reverse
  let pre := (r.dropWhile (fun c => c != '/')).reverse
  String.mk (pre ++ dropLastExt comp ++ ext.data)

/-! ## Data model for `_save_changes` (claim C1)

A deck snapshot: every deck node carries its raw collection dictionary
(abstracted to a `Nat` payload), the id of the deck configuration it
references, the note-model ids referenced by its notes, a `Metadata`
container and its child decks.  In the source every node's `metadata`
attribute aliases the top-level deck's metadata; `_save_changes` only ever
reads it on the top-level call. -/

/-- A deck configuration: stable id plus its raw dictionary payload. -/
structure DeckConfig where
  id : Nat
  anki_dict : Nat
deriving DecidableEq

/-- A note model: stable id plus its raw dictionary payload. -/
structure NoteModel where
  id : Nat
  anki_dict : Nat
deriving DecidableEq

/-- The deduplicated metadata container of a snapshot: id-keyed collections
of the deck configurations and note models referenced by the snapshot. -/
structure Metadata where
  deck_configs : List DeckConfig
  models : List NoteModel
deriving DecidableEq

mutual
/-- A deck node of the snapshot tree. -/
inductive Deck where
  | node (anki_dict : Nat) (configId : Nat) (noteModelIds : List Nat)
         (metadata : Metadata) (children : Forest)
/-- The list of child decks of a node. -/
inductive Forest where
  | nil
  | cons (d : Deck) (rest : Forest)
end

/-- The raw dictionary payload of a deck node. -/
def Deck.anki_dict : Deck → Nat
  | .node a _ _ _ _ => a

/-- The metadata container attached to a deck node. -/
def Deck.metadata : Deck → Metadata
  | .node _ _ _ md _ => md

/-- The children of a deck node. -/
def Deck.children : Deck → Forest
  | .node _ _ _ _ cs => cs

/-- Membership of a deck in a forest. -/
def Forest.mem (d : Deck) : Forest → Prop
  | .nil => False
  | .cons e rest => d = e ∨ Forest.mem d rest

mutual
/-- Deck-configuration ids referenced anywhere in a snapshot subtree. -/
def referencedConfigIds : Deck → List Nat
  | .node _ cfg _ _ cs => cfg :: referencedConfigIdsF cs
/-- Deck-configuration ids referenced anywhere in a forest. -/
def referencedConfigIdsF : Forest → List Nat
  | .nil => []
  | .cons d rest => referencedConfigIds d ++ referencedConfigIdsF rest
end

mutual
/-- Note-model ids referenced anywhere in a snapshot subtree. -/
def referencedModelIds : Deck → List Nat
  | .node _ _ ms _ cs => ms ++ referencedModelIdsF cs
/-- Note-model ids referenced anywhere in a forest. -/
def referencedModelIdsF : Forest → List Nat
  | .nil => []
  | .cons d rest => referencedModelIds d ++ referencedModelIdsF rest
end

mutual
/-- Preorder listing of the deck payloads of a snapshot subtree. -/
def deckDicts : Deck → List Nat
  | .node a _ _ _ cs => a :: deckDictsF cs
/-- Preorder listing of the deck payloads of a forest. -/
def deckDictsF : Forest → List Nat
  | .nil => []
  | .cons d rest => deckDicts d ++ deckDictsF rest
end

/-- One save performed against the collection store by `_save_changes`:
a deck dictionary via `collection.decks.save`, a deck-configuration
dictionary via `collection.decks.save`, or a model dictionary via
`collection.models.save`. -/
inductive SaveAction where
  | deckSave (payload : Nat)
  | configSave (id : Nat) (payload : Nat)
  | modelSave (id : Nat) (payload : Nat)
deriving DecidableEq

mutual
/-- `AnkiJsonExporter._save_changes`: saves the deck dictionary, recurses
into the children with `is_export_child=True`, and only when
`is_export_child` is false also saves every deck configuration and note
model of the metadata container. -/
def save_changes (d : Deck) (is_export_child : Bool) : List SaveAction :=
  match d with
  | .node a _ _ md cs =>
    SaveAction.deckSave a ::
      (save_changes_children cs ++
        (if is_export_child then []
         else
           md.deck_configs.map (fun cfg => SaveAction.configSave cfg.id cfg.anki_dict) ++
           md.models.map (fun m => SaveAction.modelSave m.id m.anki_dict)))
/-- The `for child_deck in deck.children` loop of `_save_changes`. -/
def save_changes_children : Forest → List SaveAction
  | .nil => []
  | .cons d rest => save_changes d true ++ save_changes_children rest
end

/-- The deck payloads saved by a list of save actions, in order. -/
def deckSaves (l : List SaveAction) : List Nat :=
  l.filterMap (fun a => match a with | .deckSave p => some p | _ => none)

/-- The `(id, payload)` pairs of the deck-configuration saves in a list of
save actions, in order. -/
def configSaves (l : List SaveAction) : List (Nat × Nat) :=
  l.filterMap (fun a => match a with | .configSave i p => some (i, p) | _ => none)

/-- The `(id, payload)` pairs of the note-model saves in a list of save
actions, in order. -/
def modelSaves (l : List SaveAction) : List (Nat × Nat) :=
  l.filterMap (fun a => match a with | .modelSave i p => some (i, p) | _ => none)

/-! ## Directory export: `export_to_directory` (claims C4, C5, C8) -/

/-- Python exceptions relevant to the exporter: `IOError` (caught by
`_copy_media`), `NameError` (raised by an undefined global name) and any
other exception. -/
inductive PyErr where
  | ioErr (msg : String)
  | nameError (msg : String)
  | otherErr (msg : String)
deriving DecidableEq

/-- Observable events of one `export_to_directory` run, in program order. -/
inductive Ev where
  | mkdirEv (path : String)
  | buildSnapshotEv (deckName : String)
  | sortNotesEv
  | writeDeckJsonEv (path : String)
  | saveChangesEv
  | copyMediaFileEv (file : String)
  | reportMediaFailureEv (file : String)
deriving DecidableEq

/-- Event classifier: the JSON serialization/write step. -/
def isWriteEv : Ev → Bool
  | .writeDeckJsonEv _ => true
  | _ => false

/-- Event classifier: the collection-store save step (`_save_changes`). -/
def isSaveEv : Ev → Bool
  | .saveChangesEv => true
  | _ => false

/-- Event classifier: the snapshot build step (`deck_initializer.from_collection`,
during which missing stable identifiers are assigned in memory). -/
def isBuildEv : Ev → Bool
  | .buildSnapshotEv _ => true
  | _ => false

/-- Event classifier: media copy or media failure report. -/
def isMediaEv : Ev → Bool
  | .copyMediaFileEv _ => true
  | .reportMediaFailureEv _ => true
  | _ => false

/-- One `shutil.copy` attempt inside `_copy_media`: succeeds when the file
is present in the collection's media directory, otherwise raises `IOError`. -/
def copyOneMedia (avail : List String) (f : String) : Except PyErr Unit :=
  if f ∈ avail then Except.ok () else Except.error (PyErr.ioErr f)

/-- The `for file_src in deck.get_media_file_list()` loop of `_copy_media`:
each iteration catches exactly `IOError`, prints one failure report for the
file and continues with the next file; any exception other than `IOError`
would propagate. -/
def copy_media_loop (avail : List String) : List String → Except PyErr (List Ev)
  | [] => Except.ok []
  | f :: rest =>
    match copyOneMedia avail f with
    | Except.ok _ =>
      (copy_media_loop avail rest).map (fun evs => Ev.copyMediaFileEv f :: evs)
    | Except.error (PyErr.ioErr _) =>
      (copy_media_loop avail rest).map (fun evs => Ev.reportMediaFailureEv f :: evs)
    | Except.error e => Except.error e

/-- The observable outcome of one `export_to_directory` run: its event list,
the directory path it returns and the path of the written deck file. -/
structure DirExport where
  events : List Ev
  returned : String
  deckFilePath : String
deriving DecidableEq

/-- `AnkiJsonExporter.export_to_directory`: optionally creates the sanitized
deck subdirectory, builds the snapshot, sorts the notes, writes the deck
JSON file (`deck_file_name` with its suffix replaced by
`DECK_FILE_EXTENSION`), then calls `_save_changes`, then (optionally)
creates the media subdirectory and copies the media files, and returns the
deck directory. -/
def export_to_directory_run (output_dir deckName : String)
    (copy_media create_deck_subdirectory : Bool)
    (avail mediaList : List String) : Except PyErr DirExport :=
  let deck_directory :=
    if create_deck_subdirectory then joinPath output_dir (sanitize_anki_deck_name deckName)
    else output_dir
  let deck_filename := withSuffix (joinPath deck_directory DECK_FILE_NAME) DECK_FILE_EXTENSION
  let pre :=
    (if create_deck_subdirectory then [Ev.mkdirEv deck_directory] else []) ++
      [Ev.buildSnapshotEv deckName, Ev.sortNotesEv, Ev.writeDeckJsonEv deck_filename,
        Ev.saveChangesEv]
  if copy_media then
    (copy_media_loop avail mediaList).map
      (fun mev =>
        ⟨pre ++ (Ev.mkdirEv (joinPath deck_directory MEDIA_SUBDIRECTORY_NAME) :: mev),
          deck_directory, deck_filename⟩)
  else Except.ok ⟨pre, deck_directory, deck_filename⟩

/-- A concrete three-deck snapshot (a root with two children) in which one
deck configuration and one note model are shared by every deck. -/
def exampleDeck : Deck :=
  .node 1 7 [9] ⟨[⟨7, 70⟩], [⟨9, 90⟩]⟩
    (.cons (.node 2 7 [9] ⟨[⟨7, 70⟩], [⟨9, 90⟩]⟩ .nil)
      (.cons (.node 3 7 [9] ⟨[], []⟩ .nil) .nil))

/-! ## Note sorter (claim C3) -/

/-- A note of the snapshot: its stable identifier, its ordered field values
and its tags. -/
structure Note where
  guid : Nat
  fields : List String
  tags : List String
deriving DecidableEq

/-- Modelled from the spec: the sort key of a note used by `NoteSorter`
(whose source `note_sorter.py` is not under `src/`): first-field text, then
the tags, then the stable identifier as the final tie-break — a pure
function of exportable note content. -/
def Note.sortKey (n : Note) : String × String × Nat :=
  (n.fields.headD "", String.intercalate (" ") n.tags, n.guid)

/-- Lexicographic order on note sort keys. -/
def keyLe (a b : String × String × Nat) : Prop :=
  a.1 < b.1 ∨ (a.1 = b.1 ∧ (a.2.1 < b.2.1 ∨ (a.2.1 = b.2.1 ∧ a.2.2 ≤ b.2.2)))

/-- Modelled from the spec: the total note order imposed by `NoteSorter`. -/
def noteLe (x y : Note) : Prop := keyLe x.sortKey y.sortKey

instance : DecidableRel noteLe := fun x y => by
  unfold noteLe keyLe; infer_instance

instance : IsTotal Note noteLe where
  total := by
    intro x y
    unfold noteLe keyLe
    rcases lt_trichotomy x.sortKey.1 y.sortKey.1 with h | h | h
    · exact Or.inl (Or.inl h)
    · rcases lt_trichotomy x.sortKey.2.1 y.sortKey.2.1 with h2 | h2 | h2
      · exact Or.inl (Or.inr ⟨h, Or.inl h2⟩)
      · rcases Nat.le_total x.sortKey.2.2 y.sortKey.2.2 with h3 | h3
        · exact Or.inl (Or.inr ⟨h, Or.inr ⟨h2, h3⟩⟩)
        · exact Or.inr (Or.inr ⟨h.symm, Or.inr ⟨h2.symm, h3⟩⟩)
      · exact Or.inr (Or.inr ⟨h.symm, Or.inl h2⟩)
    · exact Or.inr (Or.inl h)

instance : IsTrans Note noteLe where
  trans := by
    intro x y z hab hbc
    unfold noteLe keyLe at hab hbc ⊢
    rcases hab with h1 | ⟨e1, h1⟩
    · rcases hbc with h2 | ⟨e2, h2⟩
      · exact Or.inl (h1.trans h2)
      · exact Or.inl (lt_of_lt_of_eq h1 e2)
    · rcases hbc with h2 | ⟨e2, h2⟩
      · exact Or.inl (lt_of_eq_of_lt e1 h2)
      · refine Or.inr ⟨e1.trans e2, ?_⟩
        rcases h1 with h1 | ⟨f1, h1⟩
        · rcases h2 with h2 | ⟨f2, h2⟩
          · exact Or.inl (h1.trans h2)
          · exact Or.inl (lt_of_lt_of_eq h1 f2)
        · rcases h2 with h2 | ⟨f2, h2⟩
          · exact Or.inl (lt_of_eq_of_lt f1 h2)
          · exact Or.inr ⟨f1.trans f2, h1.trans h2⟩

/-- `NoteSorter.sort_notes`, modelled from the spec: the deck's notes sorted
by their content key. -/
def sort_notes (notes : List Note) : List Note :=
  List.insertionSort noteLe notes

/-- Two concrete notes with distinct stable identifiers. -/
def noteA : Note := ⟨1, ["alpha"], []⟩

/-- A second concrete note. -/
def noteB : Note := ⟨2, ["beta"], ["tag"]⟩

/-! ## Remote export: `export_to_github` (claims C2, C6, C9, C10) -/

/-- Python `str.replace(pat, repl)` over character lists, with the pattern
split into head and tail so that it is never empty: replaces the leftmost,
non-overlapping occurrences of the pattern, left to right. -/
def replaceAll (p0 : Char) (prest repl : List Char) : List Char → List Char
  | [] => []
  | c :: rest =>
    if (p0 :: prest).isPrefixOf (c :: rest) then
      repl ++ replaceAll p0 prest repl (rest.drop prest.length)
    else
      c :: replaceAll p0 prest repl rest
termination_by l => l.length
decreasing_by
  · simp only [List.length_cons, List.length_drop]
    omega
  · simp only [List.length_cons]
    omega

/-- Does `pat` occur (as a contiguous sublist) anywhere in the list? -/
def hasOccur (pat : List Char) : List Char → Bool
  | [] => pat.isEmpty
  | c :: rest => pat.isPrefixOf (c :: rest) || hasOccur pat rest

/-- The tail of the pattern `ContentFile(path="` (everything after the
leading `C`). -/
def contentFileTail : List Char := ("ontentFile(path=\x22").data

/-- The full pattern `ContentFile(path="` removed by the file enumeration. -/
def contentFilePat : List Char := 'C' :: contentFileTail

/-- `str(file)` for a `ContentFile` with the given path:
`ContentFile(path="<path>")`. -/
def contentFileStr (p : String) : List Char :=
  contentFilePat ++ p.data ++ ['\x22', ')']

/-- The path extraction applied to every enumerated file (source line 109):
`str(file).replace('ContentFile(path="','').replace('")','')`. -/
def pyName (p : String) : String :=
  String.mk (replaceAll '\x22' [')'] []
    (replaceAll 'C' contentFileTail [] (contentFileStr p)))

/-- A path is benign when it contains no double quote and does not end with
`ContentFile(path=`; on benign paths the enumeration's string surgery is the
identity. -/
def benignPath (p : String) : Prop :=
  ('\x22' ∉ p.data) ∧ ((("ContentFile(path=").data).isSuffixOf p.data = false)

instance (p : String) : Decidable (benignPath p) := by
  unfold benignPath
  infer_instance

mutual
/-- A file or directory of the target repository as surfaced by
`repo.get_contents`: files carry their full path, their content and their
content hash (`sha`). -/
inductive RepoEntry where
  | file (path content sha : String)
  | dir (path : String) (entries : RepoList)
/-- A list of repository entries. -/
inductive RepoList where
  | nil
  | cons (e : RepoEntry) (rest : RepoList)
end

mutual
/-- The file paths under one repository entry (recursively). -/
def entryPaths : RepoEntry → List String
  | .file p _ _ => [p]
  | .dir _ es => listPaths es
/-- The file paths under a list of repository entries (recursively). -/
def listPaths : RepoList → List String
  | .nil => []
  | .cons e rest => entryPaths e ++ listPaths rest
end

mutual
/-- `repo.get_contents(path)` for a file path: the content and sha of the
file with that full path, if any. -/
def lookupEntry : RepoEntry → String → Option (String × String)
  | .file p c s, fn => if p = fn then some (c, s) else none
  | .dir _ es, fn => lookupList es fn
/-- Path lookup over a list of repository entries. -/
def lookupList : RepoList → String → Option (String × String)
  | .nil, _ => none
  | .cons e rest, fn =>
    match lookupEntry e fn with
    | some cs => some cs
    | none => lookupList rest fn
end

mutual
/-- Number of entries below (and including) a repository entry. -/
def weightE : RepoEntry → Nat
  | .file _ _ _ => 1
  | .dir _ es => 1 + weightL es
/-- Number of entries below a list of repository entries. -/
def weightL : RepoList → Nat
  | .nil => 0
  | .cons e rest => weightE e + weightL rest
end

/-- Concatenation of repository entry lists (`contents.extend`). -/
def appendRL : RepoList → RepoList → RepoList
  | .nil, b => b
  | .cons e rest, b => .cons e (appendRL rest b)

/-- Auxiliary fact used for the termination of the enumeration loop. -/
def weightL_append : (a b : RepoList) → weightL (appendRL a b) = weightL a + weightL b
  | .nil, b => by simp [appendRL, weightL]
  | .cons e rest, b => by simp [appendRL, weightL, weightL_append rest b]; omega

/-- The `while contents:` enumeration loop of `export_to_github`
(source lines 100-109): pops the front of the queue, descends into
directories by appending their entries to the end of the queue, and records
each file's string-surgered path. -/
def get_all_files_loop : RepoList → List String
  | .nil => []
  | .cons (.file p _ _) rest => pyName p :: get_all_files_loop rest
  | .cons (.dir _ es) rest => get_all_files_loop (appendRL rest es)
termination_by q => weightL q
decreasing_by
  · simp only [weightL, weightE]
    omega
  · rw [weightL_append]
    simp only [weightL, weightE]
    omega

/-- `all_files`: the enumeration of the whole repository starting from
`repo.get_contents("")`. -/
def get_all_files (repoFiles : RepoList) : List String :=
  get_all_files_loop repoFiles

/-- A commit performed against the remote repository: either
`repo.create_file(path, message, content, branch)` or
`repo.update_file(path, message, content, sha, branch)`. -/
inductive CommitAction where
  | create (path message branch content : String)
  | update (path message branch sha content : String)
deriving DecidableEq

/-- The commit message of every create commit (source line 118). -/
def createCommitMessage : String := "Automated upload from CrowdAnki"

/-- The commit message of every update commit (source line 115). -/
def updateCommitMessage : String := "Automated update from CrowdAnki"

/-- The branch every commit targets (source lines 115 and 118). -/
def githubBranch : String := "main"

/-- Source lines 111-118 without the surrounding try/except: the
create-vs-update decision and the produced commit.  `none` models the
exception raised when `repo.get_contents(filename)` fails although the
filename was in the enumerated list. -/
def upload_step (repoFiles : RepoList) (filename deckJson : String) :
    Option CommitAction :=
  if filename ∈ get_all_files repoFiles then
    match lookupList repoFiles filename with
    | some cs =>
      some (CommitAction.update filename updateCommitMessage githubBranch cs.2 deckJson)
    | none => none
  else some (CommitAction.create filename createCommitMessage githubBranch deckJson)

/-- The decision kind of an upload step: 0 = exception, 1 = create,
2 = update. -/
def kindOf : Option CommitAction → Nat
  | none => 0
  | some (.create _ _ _ _) => 1
  | some (.update _ _ _ _ _) => 2

/-- The target path of a commit. -/
def actionPath : CommitAction → String
  | .create p _ _ _ => p
  | .update p _ _ _ _ => p

/-- The commit message of a commit. -/
def actionMessage : CommitAction → String
  | .create _ m _ _ => m
  | .update _ m _ _ _ => m

/-- The branch of a commit. -/
def actionBranch : CommitAction → String
  | .create _ _ b _ => b
  | .update _ _ b _ _ => b

mutual
/-- Erase all file contents and hashes, keeping the path structure. -/
def eraseContentE : RepoEntry → RepoEntry
  | .file p _ _ => .file p ("") ("")
  | .dir p es => .dir p (eraseContentL es)
/-- Erase contents and hashes in an entry list. -/
def eraseContentL : RepoList → RepoList
  | .nil => .nil
  | .cons e rest => .cons (eraseContentE e) (eraseContentL rest)
end

/-- The remote target filename computed on source lines 72-76:
`<sanitized deck name>/` (only with `create_deck_subdirectory`) followed by
the deck file name and extension. -/
def github_target_filename (deckName : String)
    (create_deck_subdirectory : Bool) : String :=
  (if create_deck_subdirectory then sanitize_anki_deck_name deckName ++ "/" else "") ++
    DECK_FILE_NAME ++ DECK_FILE_EXTENSION

/-- The module-level names defined (by import or definition) in
`anki_exporter.py`; the name `GITHUB_REPO` used on line 96 is not among
them. -/
def moduleGlobalNames : List String :=
  ["json", "os", "shutil", "Path", "Callable", "Github", "DeckExporter",
   "AnkiDeck", "deck_initializer", "Deck", "DECK_FILE_NAME",
   "DECK_FILE_EXTENSION", "MEDIA_SUBDIRECTORY_NAME",
   "sanitize_anki_deck_name", "NoteSorter", "ConfigSettings",
   "AnkiModalNotifier", "Notifier", "AnkiJsonExporter"]

/-- Python global-name resolution in the module: an undefined name raises
`NameError` (modelled by `none`). -/
def lookupGlobal (n : String) : Option String :=
  if n ∈ moduleGlobalNames then some n else none

/-- A value returned to the caller of `export_to_github`: either the result
of `notifier.warning(title, body)` or the success value `True`. -/
inductive PyResult where
  | warningShown (title body : String)
  | success
deriving DecidableEq

/-- Title of the authentication-failure warning (source line 87). -/
def authWarningTitle : String := "Authentication to Github failed"

/-- Body of the authentication-failure warning. -/
def authWarningBody : String :=
  "Authenticating with Github failed. Please check that both your username and password are correct. Remember: do not use your real Github login password, create a personal access token (https://git.io/token) and use that as the password."

/-- Title of the repository-lookup warning (source line 98). -/
def repoWarningTitle : String := "Unable to find Github repository"

/-- Body of the repository-lookup warning. -/
def repoWarningBody : String :=
  "Unable to find your Github repository. Make sure you have created one first: https://repo.new"

/-- Title of the upload-failure warning (source line 120). -/
def uploadWarningTitle : String := "Unknown error when uploading file"

/-- Body of the upload-failure warning. -/
def uploadWarningBody : String :=
  "Please report this error at https://git.io/JCUKl."

/-- The remote service's behaviour for one run: whether authentication,
repository lookup, content listing and the final commit succeed, and the
repository's file tree. -/
structure GithubService where
  authOk : Bool
  getRepoOk : Bool
  listOk : Bool
  repoFiles : RepoList
  uploadOk : Bool

/-- The `try: ... except Exception` block around the create/update calls
(source lines 111-120): any failure inside it — including the exception
modelled by a `none` step — becomes the upload warning. -/
def upload_commit_run (uploadOk : Bool) (step : Option CommitAction) : PyResult :=
  match step with
  | none => PyResult.warningShown uploadWarningTitle uploadWarningBody
  | some _ =>
    if uploadOk then PyResult.success
    else PyResult.warningShown uploadWarningTitle uploadWarningBody

/-- Is the run's outcome a returned value (as opposed to a raised
exception)? -/
def exceptOk : Except PyErr PyResult → Bool
  | .ok _ => true
  | .error _ => false

/-- `AnkiJsonExporter.export_to_github`: computes the target filename,
authenticates (bare `except:` returns the authentication warning), then
evaluates the module-level name `GITHUB_REPO` — which no statement of the
file defines, so the lookup raises `NameError`, caught by the bare
`except:` of lines 95-98, returning the repository warning.  The `repo`
parameter is never read before being shadowed on line 96.  The remainder
(enumeration outside any try, then the create/update try block) is kept for
fidelity although it is unreachable. -/
def export_to_github (svc : GithubService) (deckName user password repo : String)
    (create_deck_subdirectory : Bool) (deckJson : String) : Except PyErr PyResult :=
  let filename := github_target_filename deckName create_deck_subdirectory
  if svc.authOk = false then
    Except.ok (PyResult.warningShown authWarningTitle authWarningBody)
  else
    match lookupGlobal ("GITHUB_REPO") with
    | none => Except.ok (PyResult.warningShown repoWarningTitle repoWarningBody)
    | some _ =>
      if svc.getRepoOk = false then
        Except.ok (PyResult.warningShown repoWarningTitle repoWarningBody)
      else if svc.listOk = false then
        Except.error (PyErr.otherErr ("repository enumeration failed outside any handler"))
      else
        Except.ok (upload_commit_run svc.uploadOk
          (upload_step svc.repoFiles filename deckJson))

/-- A concrete repository: a subdirectory with one file, and one top-level
file `deck.json`. -/
def exampleRepo : RepoList :=
  .cons (.dir ("sub") (.cons (.file ("sub/deck.json") ("c1") ("s1")) .nil))
    (.cons (.file ("deck.json") ("old content") ("sha123")) .nil)

/-- The same repository with different file contents and hashes. -/
def exampleRepo2 : RepoList :=
  .cons (.dir ("sub") (.cons (.file ("sub/deck.json") ("other") ("t1")) .nil))
    (.cons (.file ("deck.json") ("new content") ("sha456")) .nil)

/-- A repository holding only a top-level `deck.json`. -/
def exampleRepoTop : RepoList :=
  .cons (.file ("deck.json") ("c") ("s")) .nil

/-! ## Canonical JSON serialization (claim C7)

`json.dumps(deck, default=Deck.default_json, sort_keys=True, indent=4,
ensure_ascii=False)` as called on source lines 47-51 and 114/117. -/

mutual
/-- A Python value as seen by `json.dumps`. -/
inductive Json where
  | null
  | jbool (b : Bool)
  | jnum (n : Int)
  | jstr (s : String)
  | jarr (xs : JsonList)
  | jobj (kvs : JsonObj)
/-- A JSON array. -/
inductive JsonList where
  | nil
  | cons (j : Json) (rest : JsonList)
/-- A JSON object: an ordered association list of keys and values. -/
inductive JsonObj where
  | nil
  | cons (k : String) (v : Json) (rest : JsonObj)
end

/-- The elements of a JSON array as a plain list. -/
def toListL : JsonList → List Json
  | .nil => []
  | .cons j rest => j :: toListL rest

/-- The entries of a JSON object as a plain association list. -/
def toListO : JsonObj → List (String × Json)
  | .nil => []
  | .cons k v rest => (k, v) :: toListO rest

/-- Rebuild a JSON object from an association list. -/
def ofListO : List (String × Json) → JsonObj
  | [] => .nil
  | (k, v) :: rest => .cons k v (ofListO rest)

/-- Lexicographic comparison of character lists by code point — the order
Python uses on `str`. -/
def charsLe : List Char → List Char → Bool
  | [], _ => true
  | _ :: _, [] => false
  | c1 :: r1, c2 :: r2 => if c1 = c2 then charsLe r1 r2 else decide (c1 < c2)

/-- Lexicographic string comparison by code point. -/
def strLe (a b : String) : Bool := charsLe a.data b.data

/-- Totality of the lexicographic comparison. -/
def charsLe_total : ∀ (a b : List Char), charsLe a b = true ∨ charsLe b a = true
  | [], _ => Or.inl rfl
  | _ :: _, [] => Or.inr rfl
  | a :: as, b :: bs => by
    by_cases h : a = b
    · subst h
      rcases charsLe_total as bs with h2 | h2
      · left; simp [charsLe, h2]
      · right; simp [charsLe, h2]
    · rcases lt_trichotomy a b with hl | he | hg
      · left; simp [charsLe, h, hl]
      · exact absurd he h
      · right; simp [charsLe, Ne.symm h, hg]

/-- Transitivity of the lexicographic comparison. -/
def charsLe_trans : ∀ (a b c : List Char),
    charsLe a b = true → charsLe b c = true → charsLe a c = true
  | [], _, _ => fun _ _ => rfl
  | _ :: _, [], _ => fun h _ => by simp [charsLe] at h
  | _ :: _, _ :: _, [] => fun _ h2 => by simp [charsLe] at h2
  | a :: as, b :: bs, c :: cs => fun h1 h2 => by
    simp only [charsLe] at h1 h2 ⊢
    by_cases hab : a = b
    · subst hab
      by_cases hbc : a = c
      · subst hbc
        simp only [if_pos rfl] at h1 h2 ⊢
        exact charsLe_trans as bs cs h1 h2
      · rw [if_pos rfl] at h1
        rw [if_neg hbc] at h2 ⊢
        exact h2
    · by_cases hbc : b = c
      · subst hbc
        rw [if_neg hab] at h1 ⊢
        exact h1
      · rw [if_neg hab] at h1
        rw [if_neg hbc] at h2
        have hac : a < c := lt_trans (of_decide_eq_true h1) (of_decide_eq_true h2)
        rw [if_neg (ne_of_lt hac)]
        exact decide_eq_true hac

/-- Order on object entries: by key. -/
def entryLe (a b : String × Json) : Prop := strLe a.1 b.1 = true

instance : DecidableRel entryLe := fun a b => by
  unfold entryLe; infer_instance

instance : IsTotal (String × Json) entryLe :=
  ⟨fun a b => charsLe_total a.1.data b.1.data⟩

instance : IsTrans (String × Json) entryLe :=
  ⟨fun _ _ _ h1 h2 => charsLe_trans _ _ _ h1 h2⟩

/-- `sorted(...)` over the entries of one object: a stable sort by key (what
`sort_keys=True` applies at every object of the tree). -/
def sortEntries (o : JsonObj) : JsonObj :=
  ofListO (List.insertionSort entryLe (toListO o))

mutual
/-- The canonical form produced by `sort_keys=True`: every object's entries
sorted by key recursively; arrays keep their order and only recurse. -/
def canonicalize : Json → Json
  | .jarr xs => .jarr (canonList xs)
  | .jobj kvs => .jobj (sortEntries (canonObj kvs))
  | j => j
/-- Canonicalize every element of an array, in order. -/
def canonList : JsonList → JsonList
  | .nil => .nil
  | .cons j rest => .cons (canonicalize j) (canonList rest)
/-- Canonicalize every value of an object (before sorting the keys). -/
def canonObj : JsonObj → JsonObj
  | .nil => .nil
  | .cons k v rest => .cons k (canonicalize v) (canonObj rest)
end

/-- Are the keys of one object in ascending order? -/
def objKeysChain : JsonObj → Bool
  | .nil => true
  | .cons _ _ .nil => true
  | .cons k _ (.cons k2 v2 rest) =>
    strLe k k2 && objKeysChain (JsonObj.cons k2 v2 rest)

mutual
/-- Are all mapping keys of the tree recursively sorted? -/
def keysSorted : Json → Bool
  | .jarr xs => listKeysSorted xs
  | .jobj kvs => objKeysChain kvs && objValsSorted kvs
  | _ => true
/-- `keysSorted` on every element of an array. -/
def listKeysSorted : JsonList → Bool
  | .nil => true
  | .cons j rest => keysSorted j && listKeysSorted rest
/-- `keysSorted` on every value of an object. -/
def objValsSorted : JsonObj → Bool
  | .nil => true
  | .cons _ v rest => keysSorted v && objValsSorted rest
end

/-- A hexadecimal digit character. -/
def hexDigitChar (n : Nat) : Char :=
  if n < 10 then Char.ofNat (48 + n) else Char.ofNat (87 + n)

/-- Four-digit lowercase hexadecimal rendering. -/
def hex4 (n : Nat) : List Char :=
  [hexDigitChar (n / 4096 % 16), hexDigitChar (n / 256 % 16),
   hexDigitChar (n / 16 % 16), hexDigitChar (n % 16)]

/-- `json.dumps` escaping of one character: quotes, backslashes and control
characters are escaped; a character above ASCII is emitted literally when
`ensure_ascii` is false and as a `\uXXXX` escape (or surrogate pair) when it
is true. -/
def escapeChar (ensureAscii : Bool) (c : Char) : List Char :=
  if c = '\x22' then ['\\', '\x22']
  else if c = '\\' then ['\\', '\\']
  else if c = '\n' then ['\\', 'n']
  else if c = '\t' then ['\\', 't']
  else if c = '\x0d' then ['\\', 'r']
  else if c = '\x08' then ['\\', 'b']
  else if c = '\x0c' then ['\\', 'f']
  else if c.toNat < 32 then '\\' :: 'u' :: hex4 c.toNat
  else if ensureAscii then
    if 126 < c.toNat then
      if c.toNat < 65536 then '\\' :: 'u' :: hex4 c.toNat
      else
        ('\\' :: 'u' :: hex4 (55296 + (c.toNat - 65536) / 1024)) ++
          ('\\' :: 'u' :: hex4 (56320 + (c.toNat - 65536) % 1024))
    else [c]
  else [c]

/-- A JSON string literal with its surrounding quotes. -/
def renderString (ensureAscii : Bool) (s : String) : String :=
  String.mk ('\x22' :: s.data.foldr (fun c acc => escapeChar ensureAscii c ++ acc)
    ['\x22'])

/-- `n` spaces of indentation. -/
def pad (n : Nat) : String := String.mk (List.replicate n ' ')

mutual
/-- Python `json.dumps` text of a value at nesting level `lvl` with an
`indent`-space indent per level (so the separators are `,\n` and `: `, as
Python uses whenever `indent` is given). -/
def renderJson (ensureAscii : Bool) (indent : Nat) : Json → Nat → String
  | .null, _ => "null"
  | .jbool true, _ => "true"
  | .jbool false, _ => "false"
  | .jnum n, _ => toString n
  | .jstr s, _ => renderString ensureAscii s
  | .jarr .nil, _ => "[]"
  | .jarr (.cons j rest), lvl =>
    "[\n" ++ renderArr ensureAscii indent (JsonList.cons j rest) (lvl + 1) ++ "\n" ++
      pad (indent * lvl) ++ "]"
  | .jobj .nil, _ => "\x7b\x7d"
  | .jobj (.cons k v rest), lvl =>
    "\x7b\n" ++ renderObj ensureAscii indent (JsonObj.cons k v rest) (lvl + 1) ++
      "\n" ++ pad (indent * lvl) ++ "\x7d"
/-- Render the elements of a non-empty array, one line each. -/
def renderArr (ensureAscii : Bool) (indent : Nat) : JsonList → Nat → String
  | .nil, _ => ""
  | .cons j .nil, lvl => pad (indent * lvl) ++ renderJson ensureAscii indent j lvl
  | .cons j (.cons j2 rest), lvl =>
    pad (indent * lvl) ++ renderJson ensureAscii indent j lvl ++ ",\n" ++
      renderArr ensureAscii indent (JsonList.cons j2 rest) lvl
/-- Render the entries of a non-empty object, one line each. -/
def renderObj (ensureAscii : Bool) (indent : Nat) : JsonObj → Nat → String
  | .nil, _ => ""
  | .cons k v .nil, lvl =>
    pad (indent * lvl) ++ renderString ensureAscii k ++ ": " ++
      renderJson ensureAscii indent v lvl
  | .cons k v (.cons k2 v2 rest), lvl =>
    pad (indent * lvl) ++ renderString ensureAscii k ++ ": " ++
      renderJson ensureAscii indent v lvl ++ ",\n" ++
      renderObj ensureAscii indent (JsonObj.cons k2 v2 rest) lvl
end

/-- JSON numbers for a list of naturals. -/
def jsonOfNats : List Nat → JsonList
  | [] => .nil
  | n :: rest => .cons (Json.jnum (Int.ofNat n)) (jsonOfNats rest)

/-- The default-conversion hook applied to the metadata container. -/
def metadataJson (md : Metadata) : Json :=
  Json.jobj (JsonObj.cons ("deck_configs")
    (Json.jarr (jsonOfNats (md.deck_configs.map DeckConfig.anki_dict)))
    (JsonObj.cons ("models")
      (Json.jarr (jsonOfNats (md.models.map NoteModel.anki_dict))) JsonObj.nil))

mutual
/-- `Deck.default_json`: the default-conversion hook passed to `json.dumps`,
turning each domain object of the snapshot tree into a plain mapping. -/
def Deck.default_json : Deck → Json
  | .node a cfg ms md cs =>
    Json.jobj (JsonObj.cons ("anki_dict") (Json.jnum (Int.ofNat a))
      (JsonObj.cons ("config_id") (Json.jnum (Int.ofNat cfg))
        (JsonObj.cons ("note_models") (Json.jarr (jsonOfNats ms))
          (JsonObj.cons ("metadata") (metadataJson md)
            (JsonObj.cons ("children") (Json.jarr (Forest.default_jsonF cs))
              JsonObj.nil)))))
/-- The hook applied to every child deck, in order. -/
def Forest.default_jsonF : Forest → JsonList
  | .nil => JsonList.nil
  | .cons d rest => JsonList.cons (Deck.default_json d) (Forest.default_jsonF rest)
end

/-- The keyword arguments of one `json.dumps` call site. -/
structure DumpCall where
  sortKeys : Bool
  indent : Nat
  ensureAscii : Bool
deriving DecidableEq

/-- The `json.dumps` arguments of `export_to_directory` (lines 47-51). -/
def directoryDumpCall : DumpCall := ⟨true, 4, false⟩

/-- The `json.dumps` arguments of `export_to_github` (lines 114 and 117). -/
def githubDumpCall : DumpCall := ⟨true, 4, false⟩

/-- `json.dumps(deck, default=Deck.default_json, ...)`: the hook converts the
domain tree, then `sort_keys` canonicalizes it, then it is rendered. -/
def dumps (call : DumpCall) (d : Deck) : String :=
  renderJson call.ensureAscii call.indent
    (if call.sortKeys then canonicalize (Deck.default_json d) else Deck.default_json d) 0

/-- The serialization used by the directory sink. -/
def dumpsDirectory (d : Deck) : String := dumps directoryDumpCall d

/-- The serialization used by the remote sink. -/
def dumpsGithub (d : Deck) : String := dumps githubDumpCall d

/-! ## Lemmas about `_save_changes` -/

theorem deckSaves_nil : deckSaves [] = [] := rfl

theorem configSaves_nil : configSaves [] = [] := rfl

theorem modelSaves_nil : modelSaves [] = [] := rfl

theorem deckSaves_append (l1 l2 : List SaveAction) :
    deckSaves (l1 ++ l2) = deckSaves l1 ++ deckSaves l2 := by
  simp [deckSaves]

theorem configSaves_append (l1 l2 : List SaveAction) :
    configSaves (l1 ++ l2) = configSaves l1 ++ configSaves l2 := by
  simp [configSaves]

theorem modelSaves_append (l1 l2 : List SaveAction) :
    modelSaves (l1 ++ l2) = modelSaves l1 ++ modelSaves l2 := by
  simp [modelSaves]

theorem deckSaves_cons_deck (p : Nat) (l : List SaveAction) :
    deckSaves (SaveAction.deckSave p :: l) = p :: deckSaves l := by
  simp [deckSaves]

theorem configSaves_cons_deck (p : Nat) (l : List SaveAction) :
    configSaves (SaveAction.deckSave p :: l) = configSaves l := by
  simp [configSaves]

theorem modelSaves_cons_deck (p : Nat) (l : List SaveAction) :
    modelSaves (SaveAction.deckSave p :: l) = modelSaves l := by
  simp [modelSaves]

theorem deckSaves_configMap (cfgs : List DeckConfig) :
    deckSaves (cfgs.map fun cfg => SaveAction.configSave cfg.id cfg.anki_dict) = [] := by
  simp [deckSaves]

theorem deckSaves_modelMap (ms : List NoteModel) :
    deckSaves (ms.map fun m => SaveAction.modelSave m.id m.anki_dict) = [] := by
  simp [deckSaves]

theorem configSaves_configMap (cfgs : List DeckConfig) :
    configSaves (cfgs.map fun cfg => SaveAction.configSave cfg.id cfg.anki_dict) =
      cfgs.map fun cfg => (cfg.id, cfg.anki_dict) := by
  induction cfgs with
  | nil => rfl
  | cons c rest ih => simp [configSaves] at ih ⊢; simpa using ih

theorem configSaves_modelMap (ms : List NoteModel) :
    configSaves (ms.map fun m => SaveAction.modelSave m.id m.anki_dict) = [] := by
  simp [configSaves]

theorem modelSaves_configMap (cfgs : List DeckConfig) :
    modelSaves (cfgs.map fun cfg => SaveAction.configSave cfg.id cfg.anki_dict) = [] := by
  simp [modelSaves]

theorem modelSaves_modelMap (ms : List NoteModel) :
    modelSaves (ms.map fun m => SaveAction.modelSave m.id m.anki_dict) =
      ms.map fun m => (m.id, m.anki_dict) := by
  induction ms with
  | nil => rfl
  | cons m rest ih => simp [modelSaves] at ih ⊢; simpa using ih

mutual
theorem deckSaves_save_changes (d : Deck) (b : Bool) :
    deckSaves (save_changes d b) = deckDicts d := by
  match d with
  | .node a c m md cs =>
    cases b <;>
      rw [save_changes, deckDicts] <;>
      simp only [deckSaves_cons_deck, deckSaves_append, deckSaves_configMap,
        deckSaves_modelMap, deckSaves_nil, List.append_nil, if_true, if_false,
        Bool.false_eq_true, deckSaves_save_children cs]
theorem deckSaves_save_children (f : Forest) :
    deckSaves (save_changes_children f) = deckDictsF f := by
  match f with
  | .nil => rfl
  | .cons d rest =>
    rw [save_changes_children, deckDictsF]
    rw [deckSaves_append, deckSaves_save_changes d true, deckSaves_save_children rest]
end

mutual
theorem configSaves_save_child (d : Deck) :
    configSaves (save_changes d true) = [] := by
  match d with
  | .node a c m md cs =>
    rw [save_changes]
    simp only [if_true, List.append_nil, configSaves_cons_deck,
      configSaves_save_children cs]
theorem configSaves_save_children (f : Forest) :
    configSaves (save_changes_children f) = [] := by
  match f with
  | .nil => rfl
  | .cons d rest =>
    rw [save_changes_children, configSaves_append, configSaves_save_child d,
      configSaves_save_children rest]
    rfl
end

mutual
theorem modelSaves_save_child (d : Deck) :
    modelSaves (save_changes d true) = [] := by
  match d with
  | .node a c m md cs =>
    rw [save_changes]
    simp only [if_true, List.append_nil, modelSaves_cons_deck,
      modelSaves_save_children cs]
theorem modelSaves_save_children (f : Forest) :
    modelSaves (save_changes_children f) = [] := by
  match f with
  | .nil => rfl
  | .cons d rest =>
    rw [save_changes_children, modelSaves_append, modelSaves_save_child d,
      modelSaves_save_children rest]
    rfl
end

theorem configSaves_save_changes_top (d : Deck) :
    configSaves (save_changes d false) =
      d.metadata.deck_configs.map (fun cfg => (cfg.id, cfg.anki_dict)) := by
  match d with
  | .node a c m md cs =>
    rw [save_changes]
    simp only [Bool.false_eq_true, if_false, configSaves_cons_deck,
      configSaves_append, configSaves_save_children cs, configSaves_configMap,
      configSaves_modelMap, List.append_nil, List.nil_append, Deck.metadata]
theorem modelSaves_save_changes_top (d : Deck) :
    modelSaves (save_changes d false) =
      d.metadata.models.map (fun mo => (mo.id, mo.anki_dict)) := by
  match d with
  | .node a c m md cs =>
    rw [save_changes]
    simp only [Bool.false_eq_true, if_false, modelSaves_cons_deck,
      modelSaves_append, modelSaves_save_children cs, modelSaves_configMap,
      modelSaves_modelMap, List.append_nil, List.nil_append, Deck.metadata]

/-- C1: on an export, each distinct deck configuration and note model
referenced anywhere in the snapshot (all of which the metadata container
holds, keyed by id and deduplicated) is saved back to the collection store
exactly once by the top-level `_save_changes` call; the nested per-subdeck
calls (flagged `is_export_child`) save no configurations or models, while
every deck of the tree is saved once (the deck saves are exactly the
preorder listing of the tree's deck dictionaries). -/
theorem save_changes_dedup (d : Deck)
    (hndC : (d.metadata.deck_configs.map DeckConfig.id).Nodup)
    (hndM : (d.metadata.models.map NoteModel.id).Nodup)
    (hcovC : (d.metadata.deck_configs.map DeckConfig.id).toFinset =
      (referencedConfigIds d).toFinset)
    (hcovM : (d.metadata.models.map NoteModel.id).toFinset =
      (referencedModelIds d).toFinset) :
    (∀ i ∈ referencedConfigIds d,
      ((configSaves (save_changes d false)).map Prod.fst).count i = 1)
    ∧ (∀ i ∈ referencedModelIds d,
      ((modelSaves (save_changes d false)).map Prod.fst).count i = 1)
    ∧ (∀ c : Deck, Forest.mem c d.children →
      configSaves (save_changes c true) = [] ∧ modelSaves (save_changes c true) = [])
    ∧ deckSaves (save_changes d false) = deckDicts d := by
  refine ⟨?_, ?_, ?_, deckSaves_save_changes d false⟩
  · intro i hi
    have hmem : i ∈ d.metadata.deck_configs.map DeckConfig.id := by
      have : i ∈ (d.metadata.deck_configs.map DeckConfig.id).toFinset := by
        rw [hcovC]; exact List.mem_toFinset.mpr hi
      exact List.mem_toFinset.mp this
    have hmap : (configSaves (save_changes d false)).map Prod.fst =
        d.metadata.deck_configs.map DeckConfig.id := by
      rw [configSaves_save_changes_top, List.map_map]; rfl
    rw [hmap]
    exact List.count_eq_one_of_mem hndC hmem
  · intro i hi
    have hmem : i ∈ d.metadata.models.map NoteModel.id := by
      have : i ∈ (d.metadata.models.map NoteModel.id).toFinset := by
        rw [hcovM]; exact List.mem_toFinset.mpr hi
      exact List.mem_toFinset.mp this
    have hmap : (modelSaves (save_changes d false)).map Prod.fst =
        d.metadata.models.map NoteModel.id := by
      rw [modelSaves_save_changes_top, List.map_map]; rfl
    rw [hmap]
    exact List.count_eq_one_of_mem hndM hmem
  · intro c _
    exact ⟨configSaves_save_child c, modelSaves_save_child c⟩

/-- C1 witness: the dedup theorem applied to the concrete shared-reference
snapshot `exampleDeck`. -/
theorem save_changes_dedup_witness :
    (∀ i ∈ referencedConfigIds exampleDeck,
      ((configSaves (save_changes exampleDeck false)).map Prod.fst).count i = 1)
    ∧ (∀ i ∈ referencedModelIds exampleDeck,
      ((modelSaves (save_changes exampleDeck false)).map Prod.fst).count i = 1)
    ∧ (∀ c : Deck, Forest.mem c exampleDeck.children →
      configSaves (save_changes c true) = [] ∧ modelSaves (save_changes c true) = [])
    ∧ deckSaves (save_changes exampleDeck false) = deckDicts exampleDeck :=
  save_changes_dedup exampleDeck (by decide) (by decide) (by decide) (by decide)

/-! ## Lemmas about the directory export -/

theorem joinPath_data (a b : String) :
    (joinPath a b).data = a.data ++ '/' :: b.data := by
  show ((a ++ "/") ++ b).data = _
  rw [String.data_append, String.data_append, List.append_assoc]
  rfl

theorem withSuffix_deck (dir : String) :
    withSuffix (joinPath dir DECK_FILE_NAME) DECK_FILE_EXTENSION =
      joinPath dir (DECK_FILE_NAME ++ DECK_FILE_EXTENSION) := by
  have hrev : (joinPath dir DECK_FILE_NAME).data.reverse =
      ['k', 'c', 'e', 'd'] ++ '/' :: dir.data.reverse := by
    rw [joinPath_data, List.reverse_append]
    rfl
  apply String.ext
  show ((joinPath dir DECK_FILE_NAME).data.reverse.dropWhile (fun c => c != '/')).reverse ++
      dropLastExt (((joinPath dir DECK_FILE_NAME).data.reverse.takeWhile
        (fun c => c != '/')).reverse) ++ DECK_FILE_EXTENSION.data =
    (joinPath dir (DECK_FILE_NAME ++ DECK_FILE_EXTENSION)).data
  rw [hrev, joinPath_data]
  rw [show ((['k', 'c', 'e', 'd'] ++ '/' :: dir.data.reverse).dropWhile
      (fun c => c != '/')) = '/' :: dir.data.reverse from rfl]
  rw [show ((['k', 'c', 'e', 'd'] ++ '/' :: dir.data.reverse).takeWhile
      (fun c => c != '/')) = (['k', 'c', 'e', 'd'] : List Char) from rfl]
  rw [List.reverse_cons, List.reverse_reverse]
  simp only [List.append_assoc]
  rfl

theorem copy_media_loop_spec (avail media : List String) :
    ∃ evs, copy_media_loop avail media = Except.ok evs ∧
      (∀ f, evs.count (Ev.reportMediaFailureEv f) =
        (media.filter (fun g => g ∉ avail)).count f) ∧
      (∀ f ∈ media, f ∈ avail → Ev.copyMediaFileEv f ∈ evs) ∧
      (∀ e ∈ evs, isMediaEv e = true) := by
  induction media with
  | nil =>
    refine ⟨[], rfl, ?_, ?_, ?_⟩
    · intro f; rfl
    · intro f hf; cases hf
    · intro e he; cases he
  | cons f rest ih =>
    obtain ⟨evs, hok, hcount, hcopy, hmedia⟩ := ih
    by_cases hf : f ∈ avail
    · refine ⟨Ev.copyMediaFileEv f :: evs, ?_, ?_, ?_, ?_⟩
      · simp [copy_media_loop, copyOneMedia, hf, hok, Except.map]
      · intro g
        simp [List.count_cons, hcount g, List.filter_cons, hf]
      · intro g hg hga
        rw [List.mem_cons] at hg
        rcases hg with hg | hg
        · subst hg; exact List.mem_cons_self _ _
        · exact List.mem_cons_of_mem _ (hcopy g hg hga)
      · intro e he
        rw [List.mem_cons] at he
        rcases he with he | he
        · subst he; rfl
        · exact hmedia e he
    · refine ⟨Ev.reportMediaFailureEv f :: evs, ?_, ?_, ?_, ?_⟩
      · simp [copy_media_loop, copyOneMedia, hf, hok, Except.map]
      · intro g
        simp only [List.count_cons, hcount g, List.filter_cons]
        by_cases hg : g = f
        · subst hg; simp [hf, List.count_cons]
        · simp [hf, List.count_cons, hg, Ne.symm hg]
      · intro g hg hga
        rw [List.mem_cons] at hg
        rcases hg with hg | hg
        · subst hg; exact absurd hga hf
        · exact List.mem_cons_of_mem _ (hcopy g hg hga)
      · intro e he
        rw [List.mem_cons] at he
        rcases he with he | he
        · subst he; rfl
        · exact hmedia e he

/-- C4 counterexample: in a concrete `export_to_directory` run the
collection-store save step (`_save_changes`) does NOT precede the JSON
serialization/write step — the file write comes first (line 46-51 of the
source precede the `_save_changes` call on line 53). -/
theorem export_save_before_write_false :
    ∃ res : DirExport,
      export_to_directory_run ("out") ("MyDeck") true true [] [] = Except.ok res ∧
      ¬ (res.events.findIdx isSaveEv < res.events.findIdx isWriteEv) := by
  refine ⟨_, rfl, ?_⟩
  decide

/-- C4 (amended): in every `export_to_directory` run the snapshot build —
during which missing stable identifiers are assigned on the in-memory
snapshot — precedes the JSON write, and the write-back of those changes to
the collection store (`_save_changes`) happens immediately AFTER the JSON
file is written, not before serialization. -/
theorem export_write_then_save (od dn : String) (cm cs : Bool)
    (avail media : List String) :
    ∃ res : DirExport,
      export_to_directory_run od dn cm cs avail media = Except.ok res ∧
      res.events.findIdx isBuildEv < res.events.findIdx isWriteEv ∧
      res.events.findIdx isWriteEv < res.events.findIdx isSaveEv ∧
      res.events.findIdx isSaveEv < res.events.length := by
  obtain ⟨evs, hok, -, -, -⟩ := copy_media_loop_spec avail media
  cases cm <;> cases cs
  · refine ⟨_, rfl, ?_⟩
    simp [List.findIdx_cons, isBuildEv, isWriteEv, isSaveEv]
  · refine ⟨_, rfl, ?_⟩
    simp [List.findIdx_cons, isBuildEv, isWriteEv, isSaveEv]
  · show ∃ res : DirExport, (copy_media_loop avail media).map _ = Except.ok res ∧ _
    rw [hok]
    refine ⟨_, rfl, ?_⟩
    simp [List.findIdx_cons, isBuildEv, isWriteEv, isSaveEv]
  · show ∃ res : DirExport, (copy_media_loop avail media).map _ = Except.ok res ∧ _
    rw [hok]
    refine ⟨_, rfl, ?_⟩
    simp [List.findIdx_cons, isBuildEv, isWriteEv, isSaveEv]

/-- C5: a media file missing from the media directory is caught inside
`_copy_media`, reported exactly once, and skipped: the run still completes
(`Except.ok`), the deck JSON file is written, and every available media
file is still copied. -/
theorem export_media_failure_isolated (od dn : String) (cs : Bool)
    (avail media : List String) (f g : String)
    (hnd : media.Nodup) (hf : f ∈ media) (hfa : f ∉ avail)
    (hg : g ∈ media) (hga : g ∈ avail) :
    ∃ res : DirExport,
      export_to_directory_run od dn true cs avail media = Except.ok res ∧
      Ev.writeDeckJsonEv res.deckFilePath ∈ res.events ∧
      res.events.count (Ev.reportMediaFailureEv f) = 1 ∧
      Ev.copyMediaFileEv g ∈ res.events := by
  obtain ⟨evs, hok, hcount, hcopy, -⟩ := copy_media_loop_spec avail media
  have hcnt : evs.count (Ev.reportMediaFailureEv f) = 1 := by
    rw [hcount f]
    have hmemf : f ∈ media.filter (fun g => g ∉ avail) :=
      List.mem_filter.mpr ⟨hf, by simpa using hfa⟩
    exact List.count_eq_one_of_mem (hnd.filter _) hmemf
  have hcopyg := hcopy g hg hga
  cases cs <;>
    [show ∃ res : DirExport, (copy_media_loop avail media).map _ = Except.ok res ∧ _;
     show ∃ res : DirExport, (copy_media_loop avail media).map _ = Except.ok res ∧ _] <;>
    rw [hok] <;>
    refine ⟨_, rfl, ?_, ?_, ?_⟩
  · simp
  · simp [List.count_append, List.count_cons, hcnt]
  · simp [hcopyg]
  · simp
  · simp [List.count_append, List.count_cons, hcnt]
  · simp [hcopyg]

/-- C5 witness: the media-failure-isolation theorem applied to a concrete
run where `b` is missing from the media directory while `a` and `c` exist. -/
theorem export_media_failure_isolated_witness :
    ∃ res : DirExport,
      export_to_directory_run ("out") ("D") true true ["a", "c"] ["a", "b", "c"] =
        Except.ok res ∧
      Ev.writeDeckJsonEv res.deckFilePath ∈ res.events ∧
      res.events.count (Ev.reportMediaFailureEv ("b")) = 1 ∧
      Ev.copyMediaFileEv ("a") ∈ res.events :=
  export_media_failure_isolated ("out") ("D") true ["a", "c"] ["a", "b", "c"]
    ("b") ("a") (by decide) (by decide) (by decide) (by decide) (by decide)

/-- C8: with `create_deck_subdirectory=true`, `export_to_directory` creates
the subdirectory named by sanitizing the deck name, writes the deck file
(fixed filename `deck` and extension `.json`) inside it and returns that
directory's path; with `create_deck_subdirectory=false` it writes the deck
file directly into the given output directory and returns that directory's
path; sanitizing `Japanese::N5` yields the filesystem-safe form
`Japanese__N5` (every `:` replaced by an underscore). -/
theorem export_to_directory_paths (od dn : String) (cm : Bool)
    (avail media : List String) :
    (∃ res : DirExport,
      export_to_directory_run od dn cm true avail media = Except.ok res ∧
      res.returned = joinPath od (sanitize_anki_deck_name dn) ∧
      res.deckFilePath = joinPath res.returned (DECK_FILE_NAME ++ DECK_FILE_EXTENSION) ∧
      Ev.mkdirEv res.returned ∈ res.events ∧
      Ev.writeDeckJsonEv res.deckFilePath ∈ res.events)
    ∧ (∃ res : DirExport,
      export_to_directory_run od dn cm false avail media = Except.ok res ∧
      res.returned = od ∧
      res.deckFilePath = joinPath od (DECK_FILE_NAME ++ DECK_FILE_EXTENSION) ∧
      Ev.writeDeckJsonEv res.deckFilePath ∈ res.events)
    ∧ sanitize_anki_deck_name ("Japanese::N5") = "Japanese__N5"
    ∧ (sanitize_anki_deck_name ("Japanese::N5")).data.all
        (fun c => !(invalidChar c)) = true := by
  obtain ⟨evs, hok, -, -, -⟩ := copy_media_loop_spec avail media
  refine ⟨?_, ?_, by decide, by decide⟩
  · cases cm
    · refine ⟨_, rfl, ?_, ?_, ?_, ?_⟩
      · rfl
      · exact withSuffix_deck _
      · simp
      · simp
    · show ∃ res : DirExport, (copy_media_loop avail media).map _ = Except.ok res ∧ _
      rw [hok]
      refine ⟨_, rfl, ?_, ?_, ?_, ?_⟩
      · rfl
      · exact withSuffix_deck _
      · simp
      · simp
  · cases cm
    · refine ⟨_, rfl, ?_, ?_, ?_⟩
      · rfl
      · exact withSuffix_deck _
      · simp
    · show ∃ res : DirExport, (copy_media_loop avail media).map _ = Except.ok res ∧ _
      rw [hok]
      refine ⟨_, rfl, ?_, ?_, ?_⟩
      · rfl
      · exact withSuffix_deck _
      · simp

/-! ## Lemmas about the note sorter -/

theorem keyLe_antisymm (a b : String × String × Nat)
    (hab : keyLe a b) (hba : keyLe b a) : a = b := by
  rcases a with ⟨a1, a2, a3⟩
  rcases b with ⟨b1, b2, b3⟩
  simp only [keyLe] at hab hba
  rcases hab with h1 | ⟨e1, h1⟩
  · rcases hba with h2 | ⟨e2, h2⟩
    · exact absurd h2 (lt_asymm h1)
    · exact absurd h1 (by rw [e2]; exact lt_irrefl _)
  · rcases hba with h2 | ⟨e2, h2⟩
    · exact absurd h2 (by rw [e1]; exact lt_irrefl _)
    · subst e1
      rcases h1 with h1 | ⟨f1, h1⟩
      · rcases h2 with h2 | ⟨f2, h2⟩
        · exact absurd h2 (lt_asymm h1)
        · exact absurd h1 (by rw [f2]; exact lt_irrefl _)
      · rcases h2 with h2 | ⟨f2, h2⟩
        · exact absurd h2 (by rw [f1]; exact lt_irrefl _)
        · subst f1
          rw [Nat.le_antisymm h1 h2]

theorem sorted_perm_eq {α : Type} {r : α → α → Prop} (l1 : List α) :
    ∀ l2, l1.Perm l2 → l1.Sorted r → l2.Sorted r →
      (∀ a ∈ l1, ∀ b ∈ l1, r a b → r b a → a = b) → l1 = l2 := by
  induction l1 with
  | nil =>
    intro l2 hp _ _ _
    exact hp.symm.eq_nil.symm
  | cons a t1 ih =>
    intro l2 hp hs1 hs2 hanti
    have ha2 : a ∈ l2 := hp.mem_iff.mp (List.mem_cons_self a t1)
    cases l2 with
    | nil => cases ha2
    | cons b t2 =>
      have hab : a = b := by
        by_contra hne
        have hat2 : a ∈ t2 := by
          rcases List.mem_cons.mp ha2 with h | h
          · exact absurd h hne
          · exact h
        have hb1 : b ∈ a :: t1 := hp.symm.mem_iff.mp (List.mem_cons_self b t2)
        have hbt1 : b ∈ t1 := by
          rcases List.mem_cons.mp hb1 with h | h
          · exact absurd h.symm hne
          · exact h
        have r1 : r a b := (List.sorted_cons.mp hs1).1 b hbt1
        have r2 : r b a := (List.sorted_cons.mp hs2).1 a hat2
        exact hne (hanti a (List.mem_cons_self a t1) b hb1 r1 r2)
      subst hab
      have hp' : t1.Perm t2 := hp.cons_inv
      have ht : t1 = t2 :=
        ih t2 hp' (List.sorted_cons.mp hs1).2 (List.sorted_cons.mp hs2).2
          (fun x hx y hy hxy hyx =>
            hanti x (List.mem_cons_of_mem _ hx) y (List.mem_cons_of_mem _ hy) hxy hyx)
      rw [ht]

/-- C3: the note sorter output is invariant under permutation of the
internal storage order of a deck's notes: for any two orderings of the same
set of notes (with distinct stable identifiers), sorting yields the same
sequence, because the order is a pure function of exportable note content
with the stable id as final tie-break. -/
theorem sort_notes_perm_invariant (l1 l2 : List Note)
    (hp : l1.Perm l2) (hnd : (l1.map Note.guid).Nodup) :
    sort_notes l1 = sort_notes l2 := by
  have hs1 : (sort_notes l1).Sorted noteLe := List.sorted_insertionSort _ _
  have hs2 : (sort_notes l2).Sorted noteLe := List.sorted_insertionSort _ _
  have hperm : (sort_notes l1).Perm (sort_notes l2) :=
    (List.perm_insertionSort _ l1).trans (hp.trans (List.perm_insertionSort _ l2).symm)
  refine sorted_perm_eq _ _ hperm hs1 hs2 ?_
  intro a ha b hb hab hba
  have ha1 : a ∈ l1 := (List.perm_insertionSort noteLe l1).mem_iff.mp ha
  have hb1 : b ∈ l1 := (List.perm_insertionSort noteLe l1).mem_iff.mp hb
  have hkey : a.sortKey = b.sortKey := keyLe_antisymm _ _ hab hba
  have hguid : a.guid = b.guid := congrArg (fun k => k.2.2) hkey
  exact List.inj_on_of_nodup_map hnd ha1 hb1 hguid

/-- C3 witness: swapping the internal order of two concrete notes does not
change the sorted output. -/
theorem sort_notes_perm_invariant_witness :
    sort_notes [noteA, noteB] = sort_notes [noteB, noteA] :=
  sort_notes_perm_invariant [noteA, noteB] [noteB, noteA]
    (List.Perm.swap noteB noteA []) (by decide)

/-! ## Lemmas about the enumeration's string surgery -/

theorem isPrefixOf_self_append (l m : List Char) : l.isPrefixOf (l ++ m) = true := by
  induction l with
  | nil => simp [List.isPrefixOf]
  | cons c rest ih => simp [List.isPrefixOf, ih]

theorem replaceAll_nil (p0 : Char) (prest repl : List Char) :
    replaceAll p0 prest repl [] = [] := by
  simp [replaceAll]

theorem replaceAll_head_match (p0 : Char) (prest repl m : List Char) :
    replaceAll p0 prest repl ((p0 :: prest) ++ m) =
      repl ++ replaceAll p0 prest repl m := by
  have hpre : ((p0 :: prest).isPrefixOf (p0 :: (prest ++ m))) = true := by
    simp [List.isPrefixOf, isPrefixOf_self_append]
  rw [List.cons_append]
  simp [replaceAll, hpre, List.drop_left]

theorem replaceAll_append_of_not_head (p0 : Char) (prest repl : List Char) :
    ∀ (l m : List Char), (∀ c ∈ l, c ≠ p0) →
      replaceAll p0 prest repl (l ++ m) = l ++ replaceAll p0 prest repl m := by
  intro l
  induction l with
  | nil => intro m _; simp
  | cons c rest ih =>
    intro m h
    have hc : (p0 == c) = false :=
      beq_eq_false_iff_ne.mpr (Ne.symm (h c (List.mem_cons_self c rest)))
    have hpre : ((p0 :: prest).isPrefixOf (c :: (rest ++ m))) = false := by
      simp [List.isPrefixOf, hc]
    simp [replaceAll, hpre, ih m (fun x hx => h x (List.mem_cons_of_mem _ hx))]

theorem replaceAll_of_not_hasOccur (p0 : Char) (prest repl : List Char) :
    ∀ l, hasOccur (p0 :: prest) l = false → replaceAll p0 prest repl l = l := by
  intro l
  induction l with
  | nil => intro _; exact replaceAll_nil p0 prest repl
  | cons c rest ih =>
    intro h
    simp only [hasOccur, Bool.or_eq_false_iff] at h
    simp [replaceAll, h.1, ih h.2]

theorem quote_prefix_eq : ∀ (q : List Char), '\x22' ∉ q → ∀ (p : List Char), '\x22' ∉ p →
    (q ++ ['\x22']).isPrefixOf (p ++ ['\x22', ')']) = true → p = q := by
  intro q
  induction q with
  | nil =>
    intro _ p hp h
    cases p with
    | nil => rfl
    | cons c cs =>
      simp [List.isPrefixOf] at h
      exact absurd (h ▸ List.mem_cons_self c cs) hp
  | cons a q' ih =>
    intro hq p hp h
    have hq' : '\x22' ∉ q' := fun hx => hq (List.mem_cons_of_mem _ hx)
    cases p with
    | nil =>
      simp [List.isPrefixOf] at h
      exact absurd (h.1 ▸ List.mem_cons_self a q') hq
    | cons b p' =>
      simp only [List.cons_append, List.isPrefixOf, Bool.and_eq_true, beq_iff_eq] at h
      have hp' : '\x22' ∉ p' := fun hx => hp (List.mem_cons_of_mem _ hx)
      have : p' = q' := ih hq' p' hp' h.2
      rw [h.1, this]

theorem isSuffixOf_cons_of (l x : List Char) (c : Char)
    (h : l.isSuffixOf x = true) : l.isSuffixOf (c :: x) = true := by
  have h' : l <:+ x := List.isSuffixOf_iff_suffix.mp h
  exact List.isSuffixOf_iff_suffix.mpr (h'.trans (List.suffix_cons c x))

theorem hasOccur_contentFile_false : ∀ (p : List Char), '\x22' ∉ p →
    ((("ContentFile(path=").data).isSuffixOf p = false) →
    hasOccur contentFilePat (p ++ ['\x22', ')']) = false := by
  intro p
  induction p with
  | nil => intro _ _; decide
  | cons c rest ih =>
    intro hq hs
    have hq' : '\x22' ∉ rest := fun hx => hq (List.mem_cons_of_mem _ hx)
    have hs' : (("ContentFile(path=").data).isSuffixOf rest = false := by
      by_contra hcon
      rw [Bool.not_eq_false] at hcon
      rw [isSuffixOf_cons_of _ _ c hcon] at hs
      cases hs
    rw [List.cons_append]
    simp only [hasOccur, Bool.or_eq_false_iff]
    refine ⟨?_, ?_⟩
    · by_contra hcon
      rw [Bool.not_eq_false] at hcon
      rw [show contentFilePat = (("ContentFile(path=").data) ++ ['\x22'] from by decide]
        at hcon
      rw [← List.cons_append] at hcon
      have hpq : (c :: rest) = ("ContentFile(path=").data :=
        quote_prefix_eq _ (by decide) _ hq hcon
      rw [hpq] at hs
      rw [show ((("ContentFile(path=").data).isSuffixOf (("ContentFile(path=").data)) = true
        from by decide] at hs
      cases hs
    · exact ih hq' hs'

theorem pyName_benign (p : String) (h : benignPath p) : pyName p = p := by
  obtain ⟨hq, hs⟩ := h
  unfold pyName contentFileStr
  rw [show contentFilePat = 'C' :: contentFileTail from rfl]
  rw [List.append_assoc, replaceAll_head_match, List.nil_append]
  rw [replaceAll_of_not_hasOccur 'C' contentFileTail []
    (p.data ++ ['\x22', ')'])
    (by
      have := hasOccur_contentFile_false p.data hq hs
      rw [show contentFilePat = 'C' :: contentFileTail from rfl] at this
      exact this)]
  rw [replaceAll_append_of_not_head '\x22' [')'] [] p.data ['\x22', ')']
    (fun c hc => fun he => hq (he ▸ hc))]
  have h2 : replaceAll '\x22' [')'] [] ['\x22', ')'] = [] := by
    have := replaceAll_head_match '\x22' [')'] ([] : List Char) ([] : List Char)
    simp only [List.append_nil, List.nil_append] at this
    rw [this, replaceAll_nil]
  rw [h2, List.append_nil]

/-! ## Lemmas about the repository enumeration -/

theorem listPaths_append : (a b : RepoList) →
    listPaths (appendRL a b) = listPaths a ++ listPaths b
  | .nil, b => by simp [appendRL, listPaths]
  | .cons e rest, b => by simp [appendRL, listPaths, listPaths_append rest b]

theorem mem_get_all_files_aux : ∀ (n : Nat) (q : RepoList), weightL q ≤ n → ∀ x,
    (x ∈ get_all_files_loop q ↔ ∃ p, p ∈ listPaths q ∧ pyName p = x) := by
  intro n
  induction n with
  | zero =>
    intro q hq x
    match q with
    | .nil => simp [get_all_files_loop, listPaths]
    | .cons e rest =>
      exfalso
      match e with
      | .file p c s => simp [weightL, weightE] at hq
      | .dir p es => simp [weightL, weightE] at hq
  | succ n ih =>
    intro q hq x
    match q with
    | .nil => simp [get_all_files_loop, listPaths]
    | .cons (.file p c s) rest =>
      have hr : weightL rest ≤ n := by simp [weightL, weightE] at hq; omega
      rw [show get_all_files_loop (RepoList.cons (RepoEntry.file p c s) rest) =
        pyName p :: get_all_files_loop rest from by simp [get_all_files_loop]]
      constructor
      · intro hx
        rcases List.mem_cons.mp hx with h | h
        · exact ⟨p, by simp [listPaths, entryPaths], h.symm⟩
        · obtain ⟨p', hp', hpy⟩ := (ih rest hr x).mp h
          exact ⟨p', by simp [listPaths, entryPaths, hp'], hpy⟩
      · rintro ⟨p', hp', hpy⟩
        rw [show listPaths (RepoList.cons (RepoEntry.file p c s) rest) =
          p :: listPaths rest from by simp [listPaths, entryPaths]] at hp'
        rcases List.mem_cons.mp hp' with h | h
        · subst h
          rw [← hpy]
          exact List.mem_cons_self _ _
        · exact List.mem_cons_of_mem _ ((ih rest hr x).mpr ⟨p', h, hpy⟩)
    | .cons (.dir p es) rest =>
      have hw : weightL (appendRL rest es) ≤ n := by
        rw [weightL_append]
        simp [weightL, weightE] at hq
        omega
      rw [show get_all_files_loop (RepoList.cons (RepoEntry.dir p es) rest) =
        get_all_files_loop (appendRL rest es) from by simp [get_all_files_loop]]
      rw [ih (appendRL rest es) hw x]
      constructor
      · rintro ⟨p', hp', hpy⟩
        refine ⟨p', ?_, hpy⟩
        rw [listPaths_append] at hp'
        rw [show listPaths (RepoList.cons (RepoEntry.dir p es) rest) =
          listPaths es ++ listPaths rest from by simp [listPaths, entryPaths]]
        rcases List.mem_append.mp hp' with h | h
        · exact List.mem_append_right _ h
        · exact List.mem_append_left _ h
      · rintro ⟨p', hp', hpy⟩
        refine ⟨p', ?_, hpy⟩
        rw [listPaths_append]
        rw [show listPaths (RepoList.cons (RepoEntry.dir p es) rest) =
          listPaths es ++ listPaths rest from by simp [listPaths, entryPaths]] at hp'
        rcases List.mem_append.mp hp' with h | h
        · exact List.mem_append_right _ h
        · exact List.mem_append_left _ h

theorem mem_get_all_files (r : RepoList) (x : String) :
    x ∈ get_all_files r ↔ ∃ p, p ∈ listPaths r ∧ pyName p = x :=
  mem_get_all_files_aux (weightL r) r (Nat.le_refl _) x

mutual
theorem lookupEntry_isSome_of_mem (e : RepoEntry) (fn : String)
    (h : fn ∈ entryPaths e) : (lookupEntry e fn).isSome = true := by
  match e with
  | .file p c s =>
    simp [entryPaths] at h
    simp [lookupEntry, h]
  | .dir p es =>
    simp only [entryPaths] at h
    simp only [lookupEntry]
    exact lookupList_isSome_of_mem es fn h
theorem lookupList_isSome_of_mem (l : RepoList) (fn : String)
    (h : fn ∈ listPaths l) : (lookupList l fn).isSome = true := by
  match l with
  | .nil => simp [listPaths] at h
  | .cons e rest =>
    simp only [listPaths] at h
    simp only [lookupList]
    cases hle : lookupEntry e fn with
    | some cs => simp
    | none =>
      rcases List.mem_append.mp h with h1 | h1
      · have h2 := lookupEntry_isSome_of_mem e fn h1
        rw [hle] at h2
        simp at h2
      · exact lookupList_isSome_of_mem rest fn h1
end

mutual
theorem entryPaths_erase (e : RepoEntry) :
    entryPaths (eraseContentE e) = entryPaths e := by
  match e with
  | .file p c s => simp [eraseContentE, entryPaths]
  | .dir p es =>
    simp only [eraseContentE, entryPaths]
    exact listPaths_erase es
theorem listPaths_erase (l : RepoList) :
    listPaths (eraseContentL l) = listPaths l := by
  match l with
  | .nil => rfl
  | .cons e rest =>
    simp only [eraseContentL, listPaths]
    rw [entryPaths_erase e, listPaths_erase rest]
end

mutual
theorem lookupEntry_isSome_erase (e : RepoEntry) (fn : String) :
    (lookupEntry (eraseContentE e) fn).isSome = (lookupEntry e fn).isSome := by
  match e with
  | .file p c s =>
    simp only [eraseContentE, lookupEntry]
    by_cases h : p = fn <;> simp [h]
  | .dir p es =>
    simp only [eraseContentE, lookupEntry]
    exact lookupList_isSome_erase es fn
theorem lookupList_isSome_erase (l : RepoList) (fn : String) :
    (lookupList (eraseContentL l) fn).isSome = (lookupList l fn).isSome := by
  match l with
  | .nil => rfl
  | .cons e rest =>
    simp only [eraseContentL, lookupList]
    have h2 := lookupEntry_isSome_erase e fn
    cases h1 : lookupEntry e fn with
    | some cs =>
      rw [h1] at h2
      cases h3 : lookupEntry (eraseContentE e) fn with
      | some d => simp
      | none => rw [h3] at h2; simp at h2
    | none =>
      rw [h1] at h2
      cases h3 : lookupEntry (eraseContentE e) fn with
      | some d => rw [h3] at h2; simp at h2
      | none => exact lookupList_isSome_erase rest fn
end

/-- C2: the remote sink first enumerates every existing file path of the
repository (descending recursively into directories); the create-vs-update
decision is exactly membership of the target filename in that enumeration;
on update the call passes the existing file's content hash (sha) as
precondition; and the decision depends only on the path structure — two
repositories with equal path structure but different contents yield the same
decision. -/
theorem export_to_github_create_update_decision
    (repoFiles r2 : RepoList) (filename deckJson : String)
    (hb : ∀ p ∈ listPaths repoFiles, benignPath p)
    (hshape : eraseContentL repoFiles = eraseContentL r2) :
    (filename ∈ get_all_files repoFiles ↔ filename ∈ listPaths repoFiles)
    ∧ (filename ∈ listPaths repoFiles →
        ∃ cs : String × String, lookupList repoFiles filename = some cs ∧
          upload_step repoFiles filename deckJson =
            some (CommitAction.update filename updateCommitMessage githubBranch
              cs.2 deckJson))
    ∧ (filename ∉ listPaths repoFiles →
        upload_step repoFiles filename deckJson =
          some (CommitAction.create filename createCommitMessage githubBranch deckJson))
    ∧ kindOf (upload_step repoFiles filename deckJson) =
        kindOf (upload_step r2 filename deckJson) := by
  have hmemiff : filename ∈ get_all_files repoFiles ↔ filename ∈ listPaths repoFiles := by
    rw [mem_get_all_files]
    constructor
    · rintro ⟨p, hp, hpy⟩
      rw [pyName_benign p (hb p hp)] at hpy
      exact hpy ▸ hp
    · intro hmem
      exact ⟨filename, hmem, pyName_benign filename (hb filename hmem)⟩
  refine ⟨hmemiff, ?_, ?_, ?_⟩
  · intro hmem
    have hsome := lookupList_isSome_of_mem repoFiles filename hmem
    cases hl : lookupList repoFiles filename with
    | none => rw [hl] at hsome; simp at hsome
    | some cs =>
      refine ⟨cs, rfl, ?_⟩
      unfold upload_step
      rw [if_pos (hmemiff.mpr hmem), hl]
  · intro hmem
    unfold upload_step
    rw [if_neg (fun hcon => hmem (hmemiff.mp hcon))]
  · have hlp : listPaths repoFiles = listPaths r2 := by
      rw [← listPaths_erase repoFiles, hshape, listPaths_erase]
    have hmem2 : (filename ∈ get_all_files repoFiles) ↔
        (filename ∈ get_all_files r2) := by
      rw [mem_get_all_files, mem_get_all_files, hlp]
    have hls : (lookupList repoFiles filename).isSome =
        (lookupList r2 filename).isSome := by
      rw [← lookupList_isSome_erase repoFiles, hshape, lookupList_isSome_erase]
    unfold upload_step
    by_cases hm : filename ∈ get_all_files repoFiles
    · rw [if_pos hm, if_pos (hmem2.mp hm)]
      cases h1 : lookupList repoFiles filename with
      | none =>
        rw [h1] at hls
        cases h2 : lookupList r2 filename with
        | none => rfl
        | some cs => rw [h2] at hls; simp at hls
      | some cs =>
        rw [h1] at hls
        cases h2 : lookupList r2 filename with
        | none => rw [h2] at hls; simp at hls
        | some cs2 => rfl
    · rw [if_neg hm, if_neg (fun hcon => hm (hmem2.mpr hcon))]

/-- C2 witness: the create-vs-update decision theorem applied to a concrete
two-level repository and the same repository with altered contents. -/
theorem export_to_github_create_update_decision_witness :
    (("deck.json" : String) ∈ get_all_files exampleRepo ↔
      ("deck.json" : String) ∈ listPaths exampleRepo)
    ∧ (("deck.json" : String) ∈ listPaths exampleRepo →
        ∃ cs : String × String, lookupList exampleRepo ("deck.json") = some cs ∧
          upload_step exampleRepo ("deck.json") ("x") =
            some (CommitAction.update ("deck.json") updateCommitMessage githubBranch
              cs.2 ("x")))
    ∧ (("deck.json" : String) ∉ listPaths exampleRepo →
        upload_step exampleRepo ("deck.json") ("x") =
          some (CommitAction.create ("deck.json") createCommitMessage githubBranch ("x")))
    ∧ kindOf (upload_step exampleRepo ("deck.json") ("x")) =
        kindOf (upload_step exampleRepo2 ("deck.json") ("x")) :=
  export_to_github_create_update_decision exampleRepo exampleRepo2
    ("deck.json") ("x") (by decide) (by rfl)

/-! ## Commit message, branch and path of the remote writes -/

/-- C9 counterexample: remote commits do NOT all carry one fixed commit
message string: a create commit (empty repository) and an update commit
(file already present) carry different messages (`Automated upload from
CrowdAnki` versus `Automated update from CrowdAnki`). -/
theorem github_single_commit_message_false :
    ¬ ((upload_step RepoList.nil ("deck.json") ("x")).map actionMessage =
       (upload_step exampleRepoTop ("deck.json") ("x")).map actionMessage) := by
  have hnil : get_all_files RepoList.nil = [] := by
    simp [get_all_files, get_all_files_loop]
  have h1 : upload_step RepoList.nil ("deck.json") ("x") =
      some (CommitAction.create ("deck.json") createCommitMessage githubBranch ("x")) := by
    unfold upload_step
    rw [if_neg (by rw [hnil]; simp)]
  have hloop : get_all_files exampleRepoTop = [pyName ("deck.json")] := by
    simp [get_all_files, exampleRepoTop, get_all_files_loop]
  have hpy : pyName ("deck.json") = "deck.json" := pyName_benign _ (by decide)
  have h2 : upload_step exampleRepoTop ("deck.json") ("x") =
      some (CommitAction.update ("deck.json") updateCommitMessage githubBranch
        ("s") ("x")) := by
    unfold upload_step
    rw [if_pos (by rw [hloop, hpy]; simp)]
    rw [show lookupList exampleRepoTop ("deck.json") = some (("c"), ("s")) from rfl]
  rw [h1, h2]
  decide

/-- C9 (amended): every remote write targets
`<sanitized-deck-name>/<deck-file-name><extension>` — just
`<deck-file-name><extension>` when `create_deck_subdirectory` is false —
with no leading slash, and every commit goes to the one fixed branch
`main` with a fixed commit message per operation kind: create commits say
`Automated upload from CrowdAnki` while update commits say `Automated
update from CrowdAnki` (two different fixed strings, not one). -/
theorem github_commit_path_branch_message
    (repoFiles : RepoList) (deckName deckJson : String) (flag : Bool)
    (hdn : deckName ≠ "") :
    (∀ a : CommitAction,
      upload_step repoFiles (github_target_filename deckName flag) deckJson = some a →
        actionPath a = github_target_filename deckName flag ∧
        actionBranch a = githubBranch ∧
        (kindOf (some a) = 1 → actionMessage a = createCommitMessage) ∧
        (kindOf (some a) = 2 → actionMessage a = updateCommitMessage))
    ∧ (github_target_filename deckName flag).data.head? ≠ some '/' := by
  constructor
  · intro a ha
    unfold upload_step at ha
    by_cases hm : github_target_filename deckName flag ∈ get_all_files repoFiles
    · rw [if_pos hm] at ha
      cases hl : lookupList repoFiles (github_target_filename deckName flag) with
      | none => rw [hl] at ha; simp at ha
      | some cs =>
        rw [hl] at ha
        simp only [Option.some.injEq] at ha
        rcases ha with rfl
        exact ⟨rfl, rfl, fun h => by simp [kindOf] at h, fun _ => rfl⟩
    · rw [if_neg hm] at ha
      simp only [Option.some.injEq] at ha
      rcases ha with rfl
      exact ⟨rfl, rfl, fun _ => rfl, fun h => by simp [kindOf] at h⟩
  · cases flag
    · show ((("" : String) ++ DECK_FILE_NAME ++ DECK_FILE_EXTENSION)).data.head? ≠
        some '/'
      decide
    · have hdata : (github_target_filename deckName true).data =
          deckName.data.map (fun c => if invalidChar c then '_' else c) ++
            ('/' :: (DECK_FILE_NAME.data ++ DECK_FILE_EXTENSION.data)) := by
        show ((sanitize_anki_deck_name deckName ++ "/") ++ DECK_FILE_NAME ++
          DECK_FILE_EXTENSION).data = _
        rw [String.data_append, String.data_append, String.data_append]
        simp [sanitize_anki_deck_name, List.append_assoc]
      intro hcon
      rw [hdata] at hcon
      cases hd : deckName.data with
      | nil => exact hdn (String.ext (by rw [hd]))
      | cons c cs =>
        rw [hd] at hcon
        simp only [List.map_cons, List.cons_append, List.head?_cons,
          Option.some.injEq] at hcon
        by_cases hic : invalidChar c = true
        · rw [if_pos hic] at hcon
          exact absurd hcon (by decide)
        · rw [if_neg hic] at hcon
          apply hic
          rw [hcon]
          decide

/-- C9 witness: the amended commit-shape theorem applied to a concrete
repository and deck name. -/
theorem github_commit_path_branch_message_witness :
    (∀ a : CommitAction,
      upload_step exampleRepoTop (github_target_filename ("MyDeck") true) ("x") =
        some a →
        actionPath a = github_target_filename ("MyDeck") true ∧
        actionBranch a = githubBranch ∧
        (kindOf (some a) = 1 → actionMessage a = createCommitMessage) ∧
        (kindOf (some a) = 2 → actionMessage a = updateCommitMessage))
    ∧ (github_target_filename ("MyDeck") true).data.head? ≠ some '/' :=
  github_commit_path_branch_message exampleRepoTop ("MyDeck") ("x") true (by decide)

/-! ## Error handling and the dead `repo` parameter of `export_to_github` -/

/-- C6: every remote-service failure is caught at the sink boundary and
returned as a warning-level notifier result with its own distinct title —
authentication failure, repository lookup failure, and any error inside
the create/update block — and `export_to_github` never raises: every run
returns a value (indeed always one of the two first warnings, since the
repository lookup always fails on the undefined `GITHUB_REPO`). -/
theorem export_to_github_errors_to_warnings (svc : GithubService)
    (deckName user password repo deckJson : String) (flag : Bool) :
    exceptOk (export_to_github svc deckName user password repo flag deckJson) = true
    ∧ (svc.authOk = false →
        export_to_github svc deckName user password repo flag deckJson =
          Except.ok (PyResult.warningShown authWarningTitle authWarningBody))
    ∧ (svc.authOk = true →
        export_to_github svc deckName user password repo flag deckJson =
          Except.ok (PyResult.warningShown repoWarningTitle repoWarningBody))
    ∧ (∀ step : Option CommitAction,
        upload_commit_run false step =
          PyResult.warningShown uploadWarningTitle uploadWarningBody)
    ∧ (authWarningTitle ≠ repoWarningTitle ∧ authWarningTitle ≠ uploadWarningTitle ∧
        repoWarningTitle ≠ uploadWarningTitle) := by
  have hlg : lookupGlobal ("GITHUB_REPO") = none := by decide
  refine ⟨?_, ?_, ?_, ?_, by decide⟩
  · cases hauth : svc.authOk with
    | false => simp [export_to_github, hauth, exceptOk]
    | true => simp [export_to_github, hauth, hlg, exceptOk]
  · intro hauth
    simp [export_to_github, hauth]
  · intro hauth
    simp [export_to_github, hauth, hlg]
  · intro step
    cases step with
    | none => rfl
    | some a => rfl

/-- C6 witness: with authentication succeeding, the run returns the
repository warning rather than raising. -/
theorem export_to_github_errors_to_warnings_witness :
    export_to_github ⟨true, true, true, RepoList.nil, true⟩ ("D") ("u") ("p") ("r")
      true ("j") =
      Except.ok (PyResult.warningShown repoWarningTitle repoWarningBody) :=
  (export_to_github_errors_to_warnings ⟨true, true, true, RepoList.nil, true⟩
    ("D") ("u") ("p") ("r") ("j") true).2.2.1 rfl

/-- C10: the `repo` parameter of `export_to_github` has no effect on the
outcome — the repository lookup evaluates the module-level name
`GITHUB_REPO`, which the file never defines, so after successful
authentication the lookup always takes its failure branch and the run
always returns the repository-not-found warning. -/
theorem export_to_github_repo_param_dead (svc : GithubService)
    (deckName user password repo1 repo2 deckJson : String) (flag : Bool)
    (hauth : svc.authOk = true) :
    lookupGlobal ("GITHUB_REPO") = none
    ∧ export_to_github svc deckName user password repo1 flag deckJson =
        export_to_github svc deckName user password repo2 flag deckJson
    ∧ export_to_github svc deckName user password repo1 flag deckJson =
        Except.ok (PyResult.warningShown repoWarningTitle repoWarningBody) := by
  have hlg : lookupGlobal ("GITHUB_REPO") = none := by decide
  refine ⟨hlg, rfl, ?_⟩
  simp [export_to_github, hauth, hlg]

/-- C10 witness: two runs differing only in the `repo` argument coincide
and produce the repository warning. -/
theorem export_to_github_repo_param_dead_witness :
    lookupGlobal ("GITHUB_REPO") = none
    ∧ export_to_github ⟨true, true, true, RepoList.nil, true⟩ ("D") ("u") ("p")
        ("repoA") true ("j") =
      export_to_github ⟨true, true, true, RepoList.nil, true⟩ ("D") ("u") ("p")
        ("repoB") true ("j")
    ∧ export_to_github ⟨true, true, true, RepoList.nil, true⟩ ("D") ("u") ("p")
        ("repoA") true ("j") =
      Except.ok (PyResult.warningShown repoWarningTitle repoWarningBody) :=
  export_to_github_repo_param_dead ⟨true, true, true, RepoList.nil, true⟩
    ("D") ("u") ("p") ("repoA") ("repoB") ("j") true rfl

/-! ## Lemmas about the canonical serialization -/

theorem toListO_ofListO : (l : List (String × Json)) → toListO (ofListO l) = l
  | [] => rfl
  | (k, v) :: rest => by simp [ofListO, toListO, toListO_ofListO rest]

theorem objKeysChain_ofListO : (l : List (String × Json)) → l.Sorted entryLe →
    objKeysChain (ofListO l) = true
  | [], _ => rfl
  | [(k, v)], _ => rfl
  | (k, v) :: (k2, v2) :: rest, hs => by
    have h1 : strLe k k2 = true :=
      (List.sorted_cons.mp hs).1 _ (List.mem_cons_self _ _)
    have h2 := objKeysChain_ofListO ((k2, v2) :: rest) (List.sorted_cons.mp hs).2
    show (strLe k k2 && objKeysChain (JsonObj.cons k2 v2 (ofListO rest))) = true
    rw [Bool.and_eq_true]
    exact ⟨h1, h2⟩

theorem objValsSorted_ofListO : (l : List (String × Json)) →
    (objValsSorted (ofListO l) = true ↔ ∀ p ∈ l, keysSorted p.2 = true)
  | [] => by simp [ofListO, objValsSorted]
  | (k, v) :: rest => by
    simp [ofListO, objValsSorted, Bool.and_eq_true, objValsSorted_ofListO rest,
      List.forall_mem_cons]

theorem toListO_canonObj : (o : JsonObj) →
    toListO (canonObj o) = (toListO o).map (fun p => (p.1, canonicalize p.2))
  | .nil => rfl
  | .cons k v rest => by simp [canonObj, toListO, toListO_canonObj rest]

theorem toListL_canonList : (xs : JsonList) →
    toListL (canonList xs) = (toListL xs).map canonicalize
  | .nil => rfl
  | .cons j rest => by simp [canonList, toListL, toListL_canonList rest]

theorem toListO_sortEntries_perm (o : JsonObj) :
    (toListO (sortEntries o)).Perm (toListO o) := by
  unfold sortEntries
  rw [toListO_ofListO]
  exact List.perm_insertionSort _ _

mutual
theorem keysSorted_canon (j : Json) : keysSorted (canonicalize j) = true := by
  match j with
  | .null => rfl
  | .jbool b => rfl
  | .jnum n => rfl
  | .jstr s => rfl
  | .jarr xs =>
    show listKeysSorted (canonList xs) = true
    exact keysSorted_canonL xs
  | .jobj kvs =>
    show (objKeysChain (sortEntries (canonObj kvs)) &&
      objValsSorted (sortEntries (canonObj kvs))) = true
    rw [Bool.and_eq_true]
    constructor
    · exact objKeysChain_ofListO _ (List.sorted_insertionSort _ _)
    · rw [show sortEntries (canonObj kvs) =
        ofListO (List.insertionSort entryLe (toListO (canonObj kvs))) from rfl]
      rw [objValsSorted_ofListO]
      intro p hp
      have hp2 : p ∈ toListO (canonObj kvs) :=
        (List.perm_insertionSort entryLe _).mem_iff.mp hp
      exact keysSorted_canonO kvs p hp2
theorem keysSorted_canonL (xs : JsonList) : listKeysSorted (canonList xs) = true := by
  match xs with
  | .nil => rfl
  | .cons j rest =>
    show (keysSorted (canonicalize j) && listKeysSorted (canonList rest)) = true
    rw [Bool.and_eq_true]
    exact ⟨keysSorted_canon j, keysSorted_canonL rest⟩
theorem keysSorted_canonO (o : JsonObj) :
    ∀ p ∈ toListO (canonObj o), keysSorted p.2 = true := by
  match o with
  | .nil => intro p hp; cases hp
  | .cons k v rest =>
    intro p hp
    rw [show toListO (canonObj (JsonObj.cons k v rest)) =
      (k, canonicalize v) :: toListO (canonObj rest) from rfl] at hp
    rcases List.mem_cons.mp hp with h | h
    · subst h; exact keysSorted_canon v
    · exact keysSorted_canonO rest p h
end

/-- C7: both export paths serialize with identical settings
(`sort_keys=True, indent=4, ensure_ascii=False` and the `Deck.default_json`
hook, applied before key sorting); the canonical form has all mapping keys
recursively sorted; arrays keep their order (only their elements are
canonicalized) and object entries are only permuted, never dropped or
re-keyed; with `ensure_ascii=False` a non-ASCII character is emitted
literally (whereas `True` would escape it); and rendering uses fixed
4-space indentation. -/
theorem serialization_canonical (d : Deck) (j : Json) (xs : JsonList)
    (kvs : JsonObj) :
    directoryDumpCall = githubDumpCall
    ∧ directoryDumpCall.sortKeys = true
    ∧ directoryDumpCall.indent = 4
    ∧ directoryDumpCall.ensureAscii = false
    ∧ dumpsDirectory d = dumpsGithub d
    ∧ dumpsDirectory d = renderJson false 4 (canonicalize (Deck.default_json d)) 0
    ∧ keysSorted (canonicalize j) = true
    ∧ canonicalize (Json.jarr xs) = Json.jarr (canonList xs)
    ∧ toListL (canonList xs) = (toListL xs).map canonicalize
    ∧ (toListO (sortEntries (canonObj kvs))).Perm
        ((toListO kvs).map (fun p => (p.1, canonicalize p.2)))
    ∧ renderString false ("é") = "\x22é\x22"
    ∧ renderString true ("é") = "\x22\\u00e9\x22"
    ∧ renderJson false 4
        (canonicalize (Json.jobj (JsonObj.cons ("b")
          (Json.jarr (JsonList.cons (Json.jbool true) JsonList.nil))
          (JsonObj.cons ("a") (Json.jnum 1) JsonObj.nil)))) 0 =
        "\x7b\n    \x22a\x22: 1,\n    \x22b\x22: [\n        true\n    ]\n\x7d" := by
  refine ⟨rfl, rfl, rfl, rfl, rfl, rfl, keysSorted_canon j, rfl,
    toListL_canonList xs, ?_, by decide, by decide, by decide⟩
  have h := toListO_sortEntries_perm (canonObj kvs)
  rw [toListO_canonObj] at h
  exact h

end CrowdAnki
